import Mathlib

/-!
Verification of the tree-traversal and file-aggregation core of git2txt
(`processFiles` / `processDirectory` in `src/index.js`).

The filesystem tree is embedded shallowly: a directory listing is a list of
named entries; each regular file carries the outcome of the three I/O
operations the code performs on it (`fs.stat`, `isBinaryFile`, `fs.readFile`),
each modelled as an `Except Unit` value (`.error ()` = the call throws).
A directory carries `Option` of its listing (`none` = `fs.readdir` throws).
Entries that are neither regular files nor directories (symlinks, devices)
are `other`.

Sizes are natural numbers (bytes); the size threshold is a rational, because
the JavaScript source computes `thresholdBytes = options.threshold * 1024 *
1024` on an IEEE double that may be fractional (default 0.1 MB); rationals
capture the strict comparison `stats.size > thresholdBytes` exactly for
integer sizes.
-/

namespace Git2Txt

/-- A node of the filesystem tree as observed by `processDirectory`:
a regular file with its `fs.stat` size, `isBinaryFile` verdict and
`fs.readFile` content (each possibly throwing), a directory with its
`fs.readdir` listing (`none` if enumeration throws), or a non-file
non-directory entry. -/
inductive FsEntry : Type where
  | file (st : Except Unit Nat) (bin : Except Unit Bool) (rd : Except Unit String) : FsEntry
  | dir (children : Option (List (String × FsEntry))) : FsEntry
  | other : FsEntry

/-- The options record taken by `processFiles` (src/index.js:244):
`threshold` is the size threshold in megabytes, `includeAll` disables the
size and binary filters. -/
structure Options : Type where
  threshold : ℚ
  includeAll : Bool

/-- The processing context derived from the options at the top of
`processFiles`: the injected size formatter (the `filesize` library),
the `includeAll` flag, and `thresholdBytes = threshold * 1024 * 1024`
(src/index.js:246). -/
structure Ctx : Type where
  fmt : Nat → String
  includeAll : Bool
  thresholdBytes : ℚ

/-- Conversion of the caller-facing options into the processing context,
mirroring `const thresholdBytes = options.threshold * 1024 * 1024`
(src/index.js:246). -/
def mkCtx (f : Nat → String) (o : Options) : Ctx :=
  ⟨f, o.includeAll, o.threshold * 1024 * 1024⟩

/-- The mutable state of one `processFiles` run: the accumulated `output`
string and the `processedFiles` / `skippedFiles` counters
(src/index.js:247-249). -/
structure Agg : Type where
  output : String
  processedFiles : Nat
  skippedFiles : Nat
deriving DecidableEq, Repr

/-- The state at the start of a run: empty output, both counters zero. -/
def Agg.start : Agg := ⟨"", 0, 0⟩

/-- Pointwise combination of two run states: concatenated output, added
counters.  Used to factor the walk into per-entry contributions. -/
def Agg.add (a d : Agg) : Agg :=
  ⟨a.output ++ d.output, a.processedFiles + d.processedFiles, a.skippedFiles + d.skippedFiles⟩

/-- Effect of `skippedFiles++` (src/index.js:275, 283, 306). -/
def skipOne (a : Agg) : Agg := { a with skippedFiles := a.skippedFiles + 1 }

/-- The 80-character delimiter line `'='.repeat(80)` (src/index.js:291). -/
def eqLine : String := String.mk (List.replicate 80 '=')

/-- The formatted record appended for one included file
(src/index.js:291-295): delimiter line, `File:` line with the
root-relative path, `Size:` line, delimiter line, blank line, the raw
content, and a trailing newline. -/
def fileRecord (f : Nat → String) (relPath : String) (size : Nat) (content : String) : String :=
  ("\n" ++ eqLine ++ "\n") ++ ("File: " ++ relPath ++ "\n") ++ ("Size: " ++ f size ++ "\n")
    ++ (eqLine ++ "\n\n") ++ (content ++ "\n")

/-- Effect of appending one file record and `processedFiles++`
(src/index.js:291-297). -/
def appendRecord (f : Nat → String) (relPath : String) (size : Nat) (content : String)
    (a : Agg) : Agg :=
  { a with output := a.output ++ fileRecord f relPath size content,
           processedFiles := a.processedFiles + 1 }

/-- The `fs.readFile` step (src/index.js:288): a throw is caught by the
surrounding `catch` and counted as a skip; on success the record is
appended. -/
def readStep (f : Nat → String) (relPath : String) (size : Nat) (rd : Except Unit String)
    (a : Agg) : Agg :=
  match rd with
  | .error _ => skipOne a
  | .ok content => appendRecord f relPath size content a

/-- The per-file `try` block of `processDirectory` (src/index.js:269-307):
stat the file (a throw is a skip), skip if `!includeAll` and the size
strictly exceeds the threshold, then if `!includeAll` consult the binary
detector (a throw or a `true` verdict is a skip), and finally read and
append.  When `includeAll` is true the binary detector is never invoked. -/
def classifyFile (c : Ctx) (relPath : String) (st : Except Unit Nat) (bin : Except Unit Bool)
    (rd : Except Unit String) (a : Agg) : Agg :=
  match st with
  | .error _ => skipOne a
  | .ok size =>
    if c.includeAll = false ∧ (size : ℚ) > c.thresholdBytes then skipOne a
    else if c.includeAll = false then
      match bin with
      | .error _ => skipOne a
      | .ok true => skipOne a
      | .ok false => readStep c.fmt relPath size rd a
    else readStep c.fmt relPath size rd a

/-- The root-relative path of a file reached through the listed directory
components, as computed by `path.relative(directory, fullPath)` where
`fullPath` is built by `path.join` from the root (src/index.js:259, 289). -/
def relPathString (comps : List String) : String := String.intercalate "/" comps

/-- The `for` loop of `processDirectory` (src/index.js:255-309), walking one
directory listing.  `pref` is the component path of the directory relative
to the root.  A subdirectory not named `node_modules` or `.git` is entered
recursively (its `fs.readdir` failure aborts the whole walk with an error);
a directory with a reserved name, and any non-file non-directory entry, is
passed over; a regular file is classified and counted. -/
def processEntries (c : Ctx) : List String → List (String × FsEntry) → Agg → Except Unit Agg
  | _, [], a => .ok a
  | pref, (n, .file st bin rd) :: rest, a =>
      processEntries c pref rest (classifyFile c (relPathString (pref ++ [n])) st bin rd a)
  | pref, (_, .other) :: rest, a => processEntries c pref rest a
  | pref, (n, .dir ch) :: rest, a =>
      if n = "node_modules" ∨ n = ".git" then processEntries c pref rest a
      else
        match ch with
        | none => .error ()
        | some cs =>
          match processEntries c (pref ++ [n]) cs a with
          | .error e => .error e
          | .ok a2 => processEntries c pref rest a2
termination_by _ l _ => sizeOf l

/-- One call of `processDirectory` on a directory node: enumerate it
(`fs.readdir`, whose throw propagates) and run the loop over its entries. -/
def processDirectory (c : Ctx) (pref : List String) (root : FsEntry) (a : Agg) :
    Except Unit Agg :=
  match root with
  | .dir (some cs) => processEntries c pref cs a
  | _ => .error ()

/-- The body of `processFiles` (src/index.js:244-331) up to the `return`:
walk the whole tree from the root, starting from the empty state, yielding
the final state (output and counters) or the fatal traversal error. -/
def processFilesAgg (f : Nat → String) (root : FsEntry) (o : Options) : Except Unit Agg :=
  processDirectory (mkCtx f o) [] root Agg.start

/-- The value actually returned by `processFiles` (src/index.js:323): the
accumulated output string only. -/
def processFiles (f : Nat → String) (root : FsEntry) (o : Options) : Except Unit String :=
  (processFilesAgg f root o).map Agg.output

/-- Count of the regular files the walk visits in a listing: every `file`
entry, recursively through subdirectories except the reserved-named ones.
Directories themselves and `other` entries are not counted. -/
def countFiles : List (String × FsEntry) → Nat
  | [] => 0
  | (_, .file _ _ _) :: rest => 1 + countFiles rest
  | (_, .other) :: rest => countFiles rest
  | (n, .dir ch) :: rest =>
      (if n = "node_modules" ∨ n = ".git" then 0
       else match ch with
       | none => 0
       | some cs => countFiles cs) + countFiles rest
termination_by l => sizeOf l

/-- The classification decision in isolation: `some (size, content)` when the
file is included (so a record is appended), `none` when it is skipped. -/
def classifyResult (c : Ctx) (st : Except Unit Nat) (bin : Except Unit Bool)
    (rd : Except Unit String) : Option (Nat × String) :=
  match st with
  | .error _ => none
  | .ok size =>
    if c.includeAll = false ∧ (size : ℚ) > c.thresholdBytes then none
    else if c.includeAll = false then
      match bin with
      | .error _ => none
      | .ok true => none
      | .ok false => rd.toOption.map (fun ct => (size, ct))
    else rd.toOption.map (fun ct => (size, ct))

/-- The included files of a listing, in discovery order: root-relative path,
size and content of every file that `classifyFile` includes. -/
def includedList (c : Ctx) : List String → List (String × FsEntry) → List (String × Nat × String)
  | _, [] => []
  | pref, (n, .file st bin rd) :: rest =>
      (match classifyResult c st bin rd with
       | none => []
       | some (size, ct) => [(relPathString (pref ++ [n]), size, ct)]) ++ includedList c pref rest
  | pref, (_, .other) :: rest => includedList c pref rest
  | pref, (n, .dir ch) :: rest =>
      (if n = "node_modules" ∨ n = ".git" then []
       else match ch with
       | none => []
       | some cs => includedList c (pref ++ [n]) cs) ++ includedList c pref rest
termination_by _ l => sizeOf l

/-- Concatenation of the formatted records of a list of included files,
every record produced by the same `fileRecord` template. -/
def renderRecords (f : Nat → String) : List (String × Nat × String) → String
  | [] => ""
  | (p, size, ct) :: rest => fileRecord f p size ct ++ renderRecords f rest


/-! ### Unfolding lemmas for the walk -/

theorem processEntries_nil (c : Ctx) (pref : List String) (a : Agg) :
    processEntries c pref [] a = .ok a := by
  rw [processEntries]

theorem processEntries_file (c : Ctx) (pref : List String) (n : String) (st : Except Unit Nat)
    (bin : Except Unit Bool) (rd : Except Unit String) (rest : List (String × FsEntry))
    (a : Agg) :
    processEntries c pref ((n, .file st bin rd) :: rest) a =
      processEntries c pref rest (classifyFile c (relPathString (pref ++ [n])) st bin rd a) := by
  rw [processEntries]

theorem processEntries_other (c : Ctx) (pref : List String) (n : String)
    (rest : List (String × FsEntry)) (a : Agg) :
    processEntries c pref ((n, .other) :: rest) a = processEntries c pref rest a := by
  rw [processEntries]

theorem processEntries_dir_reserved (c : Ctx) (pref : List String) (n : String)
    (ch : Option (List (String × FsEntry))) (rest : List (String × FsEntry)) (a : Agg)
    (h : n = "node_modules" ∨ n = ".git") :
    processEntries c pref ((n, .dir ch) :: rest) a = processEntries c pref rest a := by
  rcases ch with _ | cs
  · rw [processEntries.eq_4]
    simp [h]
  · rw [processEntries.eq_5]
    simp [h]

theorem processEntries_dir_none (c : Ctx) (pref : List String) (n : String)
    (rest : List (String × FsEntry)) (a : Agg)
    (h : ¬(n = "node_modules" ∨ n = ".git")) :
    processEntries c pref ((n, .dir none) :: rest) a = .error () := by
  rw [processEntries]
  simp [h]

theorem processEntries_dir_some (c : Ctx) (pref : List String) (n : String)
    (cs rest : List (String × FsEntry)) (a : Agg)
    (h : ¬(n = "node_modules" ∨ n = ".git")) :
    processEntries c pref ((n, .dir (some cs)) :: rest) a =
      match processEntries c (pref ++ [n]) cs a with
      | .error e => .error e
      | .ok a2 => processEntries c pref rest a2 := by
  rw [processEntries]
  simp [h]

/-! ### Per-file classification facts -/

theorem classifyFile_spec (c : Ctx) (rp : String) (st : Except Unit Nat)
    (bin : Except Unit Bool) (rd : Except Unit String) (a : Agg) :
    classifyFile c rp st bin rd a =
      match classifyResult c st bin rd with
      | none => skipOne a
      | some (size, ct) => appendRecord c.fmt rp size ct a := by
  unfold classifyFile classifyResult readStep
  rcases st with e | size
  · rfl
  · dsimp only
    split
    · rfl
    · split
      · rcases bin with e | b
        · rfl
        · rcases b with _ | _
          · rcases rd with e | ct <;> simp [Except.toOption]
          · rfl
      · rcases rd with e | ct <;> simp [Except.toOption]

theorem skipOne_output (a : Agg) : (skipOne a).output = a.output := rfl

theorem skipOne_processed (a : Agg) : (skipOne a).processedFiles = a.processedFiles := rfl

theorem skipOne_skipped (a : Agg) : (skipOne a).skippedFiles = a.skippedFiles + 1 := rfl

/-! ### List-level decompositions -/

theorem countFiles_cons (x : String × FsEntry) (rest : List (String × FsEntry)) :
    countFiles (x :: rest) = countFiles [x] + countFiles rest := by
  rcases x with ⟨n, e⟩
  rcases e with ⟨st, bin, rd⟩ | ch | _
  · rw [countFiles.eq_2, countFiles.eq_2, countFiles.eq_1]
  · rcases ch with _ | cs
    · rw [countFiles.eq_4, countFiles.eq_4, countFiles.eq_1]
      omega
    · rw [countFiles.eq_5, countFiles.eq_5, countFiles.eq_1]
      omega
  · rw [countFiles.eq_3, countFiles.eq_3, countFiles.eq_1]
    omega

theorem includedList_cons (c : Ctx) (pref : List String) (x : String × FsEntry)
    (rest : List (String × FsEntry)) :
    includedList c pref (x :: rest) = includedList c pref [x] ++ includedList c pref rest := by
  rcases x with ⟨n, e⟩
  rcases e with ⟨st, bin, rd⟩ | ch | _
  · rw [includedList.eq_2, includedList.eq_2, includedList.eq_1]
    simp
  · rcases ch with _ | cs
    · rw [includedList.eq_4, includedList.eq_4, includedList.eq_1]
      simp
    · rw [includedList.eq_5, includedList.eq_5, includedList.eq_1]
      simp
  · rw [includedList.eq_3, includedList.eq_3, includedList.eq_1]
    simp

theorem renderRecords_append (f : Nat → String) (xs ys : List (String × Nat × String)) :
    renderRecords f (xs ++ ys) = renderRecords f xs ++ renderRecords f ys := by
  induction xs with
  | nil =>
      rw [renderRecords.eq_1]
      simp
  | cons x xs ih =>
      rcases x with ⟨p, size, ct⟩
      rw [List.cons_append, renderRecords.eq_2, renderRecords.eq_2, ih, String.append_assoc]

/-! ### Singleton listings -/

theorem includedList_file_single (c : Ctx) (pref : List String) (n : String)
    (st : Except Unit Nat) (bin : Except Unit Bool) (rd : Except Unit String) :
    includedList c pref [(n, .file st bin rd)] =
      match classifyResult c st bin rd with
      | none => []
      | some (size, ct) => [(relPathString (pref ++ [n]), size, ct)] := by
  rw [includedList.eq_2, includedList.eq_1]
  simp

theorem includedList_other_single (c : Ctx) (pref : List String) (n : String) :
    includedList c pref [(n, FsEntry.other)] = [] := by
  rw [includedList.eq_3, includedList.eq_1]

theorem includedList_dir_reserved_single (c : Ctx) (pref : List String) (n : String)
    (ch : Option (List (String × FsEntry))) (h : n = "node_modules" ∨ n = ".git") :
    includedList c pref [(n, .dir ch)] = [] := by
  rcases ch with _ | cs
  · rw [includedList.eq_4, includedList.eq_1]
    simp [h]
  · rw [includedList.eq_5, includedList.eq_1]
    simp [h]

theorem includedList_dir_some_single (c : Ctx) (pref : List String) (n : String)
    (cs : List (String × FsEntry)) (h : ¬(n = "node_modules" ∨ n = ".git")) :
    includedList c pref [(n, .dir (some cs))] = includedList c (pref ++ [n]) cs := by
  rw [includedList.eq_5, includedList.eq_1]
  simp [h]

theorem countFiles_file_single (n : String) (st : Except Unit Nat) (bin : Except Unit Bool)
    (rd : Except Unit String) : countFiles [(n, .file st bin rd)] = 1 := by
  rw [countFiles.eq_2, countFiles.eq_1]

theorem countFiles_other_single (n : String) : countFiles [(n, FsEntry.other)] = 0 := by
  rw [countFiles.eq_3, countFiles.eq_1]

theorem countFiles_dir_reserved_single (n : String) (ch : Option (List (String × FsEntry)))
    (h : n = "node_modules" ∨ n = ".git") : countFiles [(n, .dir ch)] = 0 := by
  rcases ch with _ | cs
  · rw [countFiles.eq_4, countFiles.eq_1]
    simp [h]
  · rw [countFiles.eq_5, countFiles.eq_1]
    simp [h]

theorem countFiles_dir_none_single (n : String) : countFiles [(n, .dir none)] = 0 := by
  rw [countFiles.eq_4, countFiles.eq_1]
  simp

theorem countFiles_dir_some_single (n : String) (cs : List (String × FsEntry))
    (h : ¬(n = "node_modules" ∨ n = ".git")) :
    countFiles [(n, .dir (some cs))] = countFiles cs := by
  rw [countFiles.eq_5, countFiles.eq_1]
  simp [h]

/-! ### The main characterization of a successful walk -/

theorem processEntries_ok_spec (c : Ctx) :
    ∀ pref l a, ∀ a2, processEntries c pref l a = .ok a2 →
      a2.output = a.output ++ renderRecords c.fmt (includedList c pref l) ∧
      a2.processedFiles = a.processedFiles + (includedList c pref l).length ∧
      a2.processedFiles + a2.skippedFiles = a.processedFiles + a.skippedFiles + countFiles l := by
  intro pref l a
  induction pref, l, a using processEntries.induct c with
  | case1 pref a =>
      intro a2 h
      rw [processEntries_nil] at h
      cases h
      rw [includedList.eq_1, countFiles.eq_1, renderRecords.eq_1]
      simp
  | case2 pref n st bin rd rest a ih =>
      intro a2 h
      rw [processEntries_file] at h
      obtain ⟨ho, hp, hs⟩ := ih a2 h
      rw [classifyFile_spec] at ho hp hs
      rw [includedList_cons, includedList_file_single, countFiles_cons, countFiles_file_single]
      rcases hcr : classifyResult c st bin rd with _ | ⟨size, ct⟩ <;>
        rw [hcr] at ho hp hs <;> dsimp only at ho hp hs ⊢
      · rw [skipOne_output] at ho
        rw [skipOne_processed] at hp
        rw [skipOne_processed, skipOne_skipped] at hs
        exact ⟨by simpa using ho, by simpa using hp, by omega⟩
      · unfold appendRecord at ho hp hs
        dsimp only at ho hp hs
        refine ⟨?_, ?_, ?_⟩
        · rw [ho, renderRecords_append, renderRecords.eq_2, renderRecords.eq_1,
            String.append_empty, String.append_assoc]
        · rw [hp]
          simp only [List.length_append, List.length_cons, List.length_nil]
          omega
        · omega
  | case3 pref n rest a ih =>
      intro a2 h
      rw [processEntries_other] at h
      obtain ⟨ho, hp, hs⟩ := ih a2 h
      rw [includedList_cons, includedList_other_single, countFiles_cons, countFiles_other_single]
      simp only [List.nil_append]
      exact ⟨ho, hp, by omega⟩
  | case4 pref n ch rest a hres ih =>
      intro a2 h
      rw [processEntries_dir_reserved c pref n ch rest a hres] at h
      obtain ⟨ho, hp, hs⟩ := ih a2 h
      rw [includedList_cons, includedList_dir_reserved_single c pref n ch hres,
        countFiles_cons, countFiles_dir_reserved_single n ch hres]
      simp only [List.nil_append]
      exact ⟨ho, hp, by omega⟩
  | case5 pref n rest a hres =>
      intro a2 h
      rw [processEntries_dir_none c pref n rest a hres] at h
      cases h
  | case6 pref n rest a hres cs e herr ih =>
      intro a2 h
      rw [processEntries_dir_some c pref n cs rest a hres] at h
      rw [herr] at h
      cases h
  | case7 pref n rest a hres cs amid hmid ih1 ih2 =>
      intro a2 h
      rw [processEntries_dir_some c pref n cs rest a hres] at h
      rw [hmid] at h
      dsimp only at h
      obtain ⟨ho1, hp1, hs1⟩ := ih1 amid hmid
      obtain ⟨ho2, hp2, hs2⟩ := ih2 a2 h
      rw [includedList_cons, includedList_dir_some_single c pref n cs hres,
        countFiles_cons, countFiles_dir_some_single n cs hres]
      refine ⟨?_, ?_, ?_⟩
      · rw [ho2, ho1, renderRecords_append, String.append_assoc]
      · rw [hp2, hp1]
        simp only [List.length_append]
        omega
      · omega

/-! ### Concrete fixtures used by the witnesses -/

/-- A concrete stand-in for the injected `filesize` formatter. -/
def fmtW : Nat → String := fun n => toString n ++ " B"

/-- A context with the filters active: `includeAll = false`, one-mebibyte
threshold. -/
def cExcW : Ctx := ⟨fmtW, false, 1048576⟩

/-- A context with `includeAll = true`. -/
def cIncW : Ctx := ⟨fmtW, true, 0⟩

/-- A small tree exercising every entry kind: an included text file, an
`other` entry, a reserved directory, and a subdirectory holding a file whose
`stat` throws. -/
def lW1 : List (String × FsEntry) :=
  [("a.txt", .file (.ok 5) (.ok false) (.ok "hi")),
   ("b", FsEntry.other),
   ("node_modules", .dir (some [("x.txt", .file (.ok 3) (.ok false) (.ok "y"))])),
   ("d", .dir (some [("c.txt", .file (.error ()) (.ok false) (.ok ""))]))]

/-- The final state of the `lW1` run under `cExcW`. -/
def aW1 : Agg := ⟨fileRecord fmtW "a.txt" 5 "hi", 1, 1⟩

/-! ### The claims -/

/-- C1: for every run of the walk that completes without a fatal error, the
final `processedFiles` plus `skippedFiles` equals their starting values plus
the number of regular files visited (`countFiles`, which ignores directory
entries and everything under a reserved-named directory); moreover every
classified regular file increments exactly one of the two counters by
exactly one. -/
theorem claim_C1_counter_partition :
    (∀ (c : Ctx) (pref : List String) (l : List (String × FsEntry)) (a a2 : Agg),
        processEntries c pref l a = .ok a2 →
          a2.processedFiles + a2.skippedFiles
            = a.processedFiles + a.skippedFiles + countFiles l) ∧
    (∀ (c : Ctx) (rp : String) (st : Except Unit Nat) (bin : Except Unit Bool)
        (rd : Except Unit String) (a : Agg),
        ((classifyFile c rp st bin rd a).processedFiles = a.processedFiles + 1 ∧
          (classifyFile c rp st bin rd a).skippedFiles = a.skippedFiles) ∨
        ((classifyFile c rp st bin rd a).processedFiles = a.processedFiles ∧
          (classifyFile c rp st bin rd a).skippedFiles = a.skippedFiles + 1)) := by
  constructor
  · intro c pref l a a2 h
    exact (processEntries_ok_spec c pref l a a2 h).2.2
  · intro c rp st bin rd a
    rw [classifyFile_spec]
    cases hcr : classifyResult c st bin rd with
    | none => exact Or.inr ⟨rfl, rfl⟩
    | some pr =>
        obtain ⟨size, ct⟩ := pr
        exact Or.inl ⟨rfl, rfl⟩

/-- Witness for C1: a concrete run over `lW1` with the filters active ends
with `processedFiles = 1`, `skippedFiles = 1`, and `1 + 1` is exactly
`countFiles lW1`. -/
theorem claim_C1_counter_partition_witness :
    processEntries cExcW [] lW1 Agg.start = .ok aW1 ∧
    aW1.processedFiles + aW1.skippedFiles
      = Agg.start.processedFiles + Agg.start.skippedFiles + countFiles lW1 := by
  have hrun : processEntries cExcW [] lW1 Agg.start = .ok aW1 := by
    set_option maxRecDepth 4000 in
    simp +decide [processEntries_file, processEntries_other, processEntries_dir_reserved,
      processEntries_dir_some, processEntries_nil, classifyFile, readStep, appendRecord,
      skipOne, Agg.start, relPathString, cExcW, aW1, lW1]
  exact ⟨hrun, claim_C1_counter_partition.1 cExcW [] lW1 Agg.start aW1 hrun⟩

/-- C3: a regular file whose size strictly exceeds the threshold is skipped
whenever `includeAll` is false; with `includeAll` true the size filter is
bypassed and the file is appended whenever its read succeeds; and the
spec scenario: a run over a single 2-MB file with a 0.1-MB threshold and
`includeAll = false` ends with empty content, `processedFiles = 0` and
`skippedFiles = 1`. -/
theorem claim_C3_size_filter :
    (∀ (c : Ctx) (rp : String) (size : Nat) (bin : Except Unit Bool)
        (rd : Except Unit String) (a : Agg),
        c.includeAll = false → (size : ℚ) > c.thresholdBytes →
          classifyFile c rp (.ok size) bin rd a = skipOne a) ∧
    (∀ (c : Ctx) (rp : String) (size : Nat) (bin : Except Unit Bool) (ct : String) (a : Agg),
        c.includeAll = true →
          classifyFile c rp (.ok size) bin (.ok ct) a = appendRecord c.fmt rp size ct a) ∧
    (∀ f : Nat → String,
        processFilesAgg f (.dir (some [("big.bin", .file (.ok 2097152) (.ok false) (.ok "x"))]))
            ⟨1/10, false⟩
          = .ok ⟨"", 0, 1⟩) := by
  refine ⟨?_, ?_, ?_⟩
  · intro c rp size bin rd a hall hgt
    unfold classifyFile
    dsimp only
    rw [if_pos ⟨hall, hgt⟩]
  · intro c rp size bin ct a hall
    unfold classifyFile
    dsimp only
    rw [if_neg (by simp [hall]), if_neg (by simp [hall])]
    rfl
  · intro f
    have hthr : ((2097152 : Nat) : ℚ) > (1 : ℚ)/10 * 1024 * 1024 := by norm_num
    rw [processFilesAgg, processDirectory, processEntries_file]
    unfold classifyFile
    dsimp only [mkCtx]
    rw [if_pos ⟨rfl, hthr⟩]
    rw [processEntries_nil]
    rfl

/-- Witness for C3: the size-filter branch at a concrete oversized file and
the bypass branch at a concrete context with `includeAll = true`. -/
theorem claim_C3_size_filter_witness :
    classifyFile cExcW "big.bin" (.ok 2000000) (.ok false) (.ok "x") Agg.start
        = skipOne Agg.start ∧
    classifyFile cIncW "a.txt" (.ok 7) (.ok true) (.ok "hi") Agg.start
        = appendRecord cIncW.fmt "a.txt" 7 "hi" Agg.start :=
  ⟨claim_C3_size_filter.1 cExcW "big.bin" 2000000 (.ok false) (.ok "x") Agg.start rfl
      (by decide),
   claim_C3_size_filter.2.1 cIncW "a.txt" 7 (.ok true) "hi" Agg.start rfl⟩

/-- C4: a file passing the size check but classified binary is skipped when
`includeAll` is false; when `includeAll` is true the binary detector is
never consulted (the run state does not depend on its verdict at all) and
the file is appended whenever its read succeeds. -/
theorem claim_C4_binary_filter :
    (∀ (c : Ctx) (rp : String) (size : Nat) (rd : Except Unit String) (a : Agg),
        c.includeAll = false → ¬((size : ℚ) > c.thresholdBytes) →
          classifyFile c rp (.ok size) (.ok true) rd a = skipOne a) ∧
    (∀ (c : Ctx) (rp : String) (st : Except Unit Nat) (bin bin2 : Except Unit Bool)
        (rd : Except Unit String) (a : Agg),
        c.includeAll = true →
          classifyFile c rp st bin rd a = classifyFile c rp st bin2 rd a) ∧
    (∀ (c : Ctx) (rp : String) (size : Nat) (bin : Except Unit Bool) (ct : String) (a : Agg),
        c.includeAll = true →
          classifyFile c rp (.ok size) bin (.ok ct) a = appendRecord c.fmt rp size ct a) := by
  refine ⟨?_, ?_, ?_⟩
  · intro c rp size rd a hall hle
    unfold classifyFile
    dsimp only
    rw [if_neg (by simp [hall, hle]), if_pos hall]
  · intro c rp st bin bin2 rd a hall
    unfold classifyFile
    cases st with
    | error e => rfl
    | ok size =>
        dsimp only
        rw [if_neg (by simp [hall]), if_neg (by simp [hall]),
          if_neg (by simp [hall]), if_neg (by simp [hall])]
  · intro c rp size bin ct a hall
    unfold classifyFile
    dsimp only
    rw [if_neg (by simp [hall]), if_neg (by simp [hall])]
    rfl

/-- Witness for C4: a concrete binary file inside the threshold is skipped
when the filters are active; with `includeAll = true` the result is
independent of the detector verdict and a concrete read succeeds into an
appended record. -/
theorem claim_C4_binary_filter_witness :
    classifyFile cExcW "a.bin" (.ok 5) (.ok true) (.ok "x") Agg.start = skipOne Agg.start ∧
    classifyFile cIncW "a.bin" (.ok 5) (.ok true) (.ok "x") Agg.start
      = classifyFile cIncW "a.bin" (.ok 5) (.error ()) (.ok "x") Agg.start ∧
    classifyFile cIncW "a.bin" (.ok 5) (.ok true) (.ok "x") Agg.start
      = appendRecord cIncW.fmt "a.bin" 5 "x" Agg.start :=
  ⟨claim_C4_binary_filter.1 cExcW "a.bin" 5 (.ok "x") Agg.start rfl (by decide),
   claim_C4_binary_filter.2.1 cIncW "a.bin" (.ok 5) (.ok true) (.error ()) (.ok "x")
     Agg.start rfl,
   claim_C4_binary_filter.2.2 cIncW "a.bin" 5 (.ok true) "x" Agg.start rfl⟩

/-- C5: a directory entry named exactly `node_modules` or `.git` is never
descended into, whatever its contents and whatever the options: the walk
continues as if the entry were absent, and the subtree contributes zero to
`countFiles` and nothing to the included records. -/
theorem claim_C5_reserved_dirs (c : Ctx) (pref : List String) (n : String)
    (ch : Option (List (String × FsEntry))) (rest : List (String × FsEntry)) (a : Agg)
    (h : n = "node_modules" ∨ n = ".git") :
    processEntries c pref ((n, .dir ch) :: rest) a = processEntries c pref rest a ∧
    countFiles [(n, .dir ch)] = 0 ∧
    includedList c pref [(n, .dir ch)] = [] :=
  ⟨processEntries_dir_reserved c pref n ch rest a h,
   countFiles_dir_reserved_single n ch h,
   includedList_dir_reserved_single c pref n ch h⟩

/-- Witness for C5: both reserved names at concrete non-empty subtrees,
under a context with `includeAll = true`. -/
theorem claim_C5_reserved_dirs_witness :
    (processEntries cIncW []
        [("node_modules", .dir (some [("x.txt", .file (.ok 3) (.ok false) (.ok "y"))]))]
        Agg.start
      = processEntries cIncW [] [] Agg.start ∧
     countFiles [("node_modules",
        .dir (some [("x.txt", .file (.ok 3) (.ok false) (.ok "y"))]))] = 0 ∧
     includedList cIncW [] [("node_modules",
        .dir (some [("x.txt", .file (.ok 3) (.ok false) (.ok "y"))]))] = []) ∧
    (processEntries cIncW []
        [(".git", .dir (some [("config", .file (.ok 3) (.ok false) (.ok "y"))]))]
        Agg.start
      = processEntries cIncW [] [] Agg.start ∧
     countFiles [(".git", .dir (some [("config", .file (.ok 3) (.ok false) (.ok "y"))]))] = 0 ∧
     includedList cIncW [] [(".git",
        .dir (some [("config", .file (.ok 3) (.ok false) (.ok "y"))]))] = []) :=
  ⟨claim_C5_reserved_dirs cIncW [] "node_modules"
      (some [("x.txt", .file (.ok 3) (.ok false) (.ok "y"))]) [] Agg.start (by decide),
   claim_C5_reserved_dirs cIncW [] ".git"
      (some [("config", .file (.ok 3) (.ok false) (.ok "y"))]) [] Agg.start (by decide)⟩

/-- C9: the reserved-name exclusion applies only to directory entries: a
regular file named exactly `node_modules` or `.git` goes through the
ordinary classification like any other file (and counts as one visited
file), and if it survives the size and binary filters it is appended to
the output and counted in `processedFiles`. -/
theorem claim_C9_reserved_named_files (c : Ctx) (pref : List String)
    (st : Except Unit Nat) (bin : Except Unit Bool) (rd : Except Unit String)
    (rest : List (String × FsEntry)) (a : Agg) :
    (processEntries c pref (("node_modules", .file st bin rd) :: rest) a
      = processEntries c pref rest
          (classifyFile c (relPathString (pref ++ ["node_modules"])) st bin rd a)) ∧
    (processEntries c pref ((".git", .file st bin rd) :: rest) a
      = processEntries c pref rest
          (classifyFile c (relPathString (pref ++ [".git"])) st bin rd a)) ∧
    countFiles [("node_modules", .file st bin rd)] = 1 ∧
    countFiles [(".git", .file st bin rd)] = 1 ∧
    (∀ (rp : String) (size : Nat) (ct : String),
        c.includeAll = false → ¬((size : ℚ) > c.thresholdBytes) →
          classifyFile c rp (.ok size) (.ok false) (.ok ct) a
            = appendRecord c.fmt rp size ct a) := by
  refine ⟨processEntries_file c pref "node_modules" st bin rd rest a,
    processEntries_file c pref ".git" st bin rd rest a,
    countFiles_file_single "node_modules" st bin rd,
    countFiles_file_single ".git" st bin rd, ?_⟩
  intro rp size ct hall hle
  unfold classifyFile
  dsimp only
  rw [if_neg (by simp [hall, hle]), if_pos hall]
  rfl

/-- Witness for C9: a concrete regular file named `node_modules` is walked
into the classifier (not name-skipped), and under the active filters a
small non-binary readable such file is appended and counted. -/
theorem claim_C9_reserved_named_files_witness :
    (processEntries cExcW [] [("node_modules", FsEntry.file (.ok 5) (.ok false) (.ok "hi"))]
        Agg.start
      = processEntries cExcW [] []
          (classifyFile cExcW (relPathString ([] ++ ["node_modules"])) (.ok 5) (.ok false)
            (.ok "hi") Agg.start)) ∧
    classifyFile cExcW "node_modules" (.ok 5) (.ok false) (.ok "hi") Agg.start
      = appendRecord cExcW.fmt "node_modules" 5 "hi" Agg.start :=
  ⟨(claim_C9_reserved_named_files cExcW [] (.ok 5) (.ok false) (.ok "hi") [] Agg.start).1,
   (claim_C9_reserved_named_files cExcW [] (.ok 5) (.ok false) (.ok "hi") [] Agg.start).2.2.2.2
     "node_modules" 5 "hi" rfl (by decide)⟩

/-- C10: when the binary detector itself throws (on a file within the
threshold, with `includeAll = false`), the failure is absorbed as a
per-file skip — `skippedFiles` is incremented, nothing is appended — and
the walk continues with the remaining entries rather than aborting. -/
theorem claim_C10_binary_detector_error (c : Ctx) (pref : List String) (n : String)
    (rd : Except Unit String) (rest : List (String × FsEntry)) (a : Agg) :
    (∀ (rp : String) (size : Nat),
        c.includeAll = false → ¬((size : ℚ) > c.thresholdBytes) →
          classifyFile c rp (.ok size) (.error ()) rd a = skipOne a) ∧
    (∀ (st : Except Unit Nat) (bin : Except Unit Bool),
        processEntries c pref ((n, .file st bin rd) :: rest) a
          = processEntries c pref rest
              (classifyFile c (relPathString (pref ++ [n])) st bin rd a)) := by
  constructor
  · intro rp size hall hle
    unfold classifyFile
    dsimp only
    rw [if_neg (by simp [hall, hle]), if_pos hall]
  · intro st bin
    exact processEntries_file c pref n st bin rd rest a

/-- Witness for C10: a concrete file whose detector verdict is a throw is
skipped under the active filters, and the walk steps on to the rest. -/
theorem claim_C10_binary_detector_error_witness :
    classifyFile cExcW "f.txt" (.ok 5) (.error ()) (.ok "x") Agg.start = skipOne Agg.start ∧
    processEntries cExcW [] [("f.txt", FsEntry.file (.ok 5) (.error ()) (.ok "x"))] Agg.start
      = processEntries cExcW [] []
          (classifyFile cExcW (relPathString ([] ++ ["f.txt"])) (.ok 5) (.error ()) (.ok "x")
            Agg.start) :=
  ⟨(claim_C10_binary_detector_error cExcW [] "f.txt" (.ok "x") [] Agg.start).1
      "f.txt" 5 rfl (by decide),
   (claim_C10_binary_detector_error cExcW [] "f.txt" (.ok "x") [] Agg.start).2
      (.ok 5) (.error ())⟩

/-- C6: per-file failures are absorbed locally as skips — a `stat` throw, a
read throw after the checks pass (with either `includeAll` value), a binary
detector throw — and the loop continues with the next candidate; whereas a
directory-enumeration failure (a non-reserved subdirectory whose listing
throws, or the root itself) aborts the whole walk with `.error ()`, a value
carrying no partial output. -/
theorem claim_C6_error_policy (c : Ctx) :
    (∀ (rp : String) (bin : Except Unit Bool) (rd : Except Unit String) (a : Agg),
        classifyFile c rp (.error ()) bin rd a = skipOne a) ∧
    (∀ (rp : String) (size : Nat) (bin : Except Unit Bool) (a : Agg),
        c.includeAll = true →
          classifyFile c rp (.ok size) bin (.error ()) a = skipOne a) ∧
    (∀ (rp : String) (size : Nat) (a : Agg),
        c.includeAll = false → ¬((size : ℚ) > c.thresholdBytes) →
          classifyFile c rp (.ok size) (.ok false) (.error ()) a = skipOne a) ∧
    (∀ (pref : List String) (n : String) (st : Except Unit Nat) (bin : Except Unit Bool)
        (rd : Except Unit String) (rest : List (String × FsEntry)) (a : Agg),
        processEntries c pref ((n, .file st bin rd) :: rest) a
          = processEntries c pref rest
              (classifyFile c (relPathString (pref ++ [n])) st bin rd a)) ∧
    (∀ (pref : List String) (n : String) (rest : List (String × FsEntry)) (a : Agg),
        ¬(n = "node_modules" ∨ n = ".git") →
          processEntries c pref ((n, .dir none) :: rest) a = .error ()) ∧
    (∀ (f : Nat → String) (o : Options), processFilesAgg f (.dir none) o = .error ()) := by
  refine ⟨?_, ?_, ?_, ?_, ?_, ?_⟩
  · intro rp bin rd a
    rfl
  · intro rp size bin a hall
    unfold classifyFile
    dsimp only
    rw [if_neg (by simp [hall]), if_neg (by simp [hall])]
    rfl
  · intro rp size a hall hle
    unfold classifyFile
    dsimp only
    rw [if_neg (by simp [hall, hle]), if_pos hall]
    rfl
  · intro pref n st bin rd rest a
    exact processEntries_file c pref n st bin rd rest a
  · intro pref n rest a h
    exact processEntries_dir_none c pref n rest a h
  · intro f o
    rfl

/-- Witness for C6: concrete skips for a stat throw and read throws under
both option settings, a concrete fatal abort on an unreadable non-reserved
subdirectory, and on an unreadable root. -/
theorem claim_C6_error_policy_witness :
    classifyFile cExcW "f.txt" (.error ()) (.ok false) (.ok "x") Agg.start = skipOne Agg.start ∧
    classifyFile cIncW "f.txt" (.ok 5) (.ok false) (.error ()) Agg.start = skipOne Agg.start ∧
    classifyFile cExcW "f.txt" (.ok 5) (.ok false) (.error ()) Agg.start = skipOne Agg.start ∧
    processEntries cExcW [] [("sub", .dir none)] Agg.start = .error () ∧
    processFilesAgg fmtW (.dir none) ⟨1, false⟩ = .error () :=
  ⟨(claim_C6_error_policy cExcW).1 "f.txt" (.ok false) (.ok "x") Agg.start,
   (claim_C6_error_policy cIncW).2.1 "f.txt" 5 (.ok false) Agg.start rfl,
   (claim_C6_error_policy cExcW).2.2.1 "f.txt" 5 Agg.start rfl (by decide),
   (claim_C6_error_policy cExcW).2.2.2.2.1 [] "sub" [] Agg.start (by decide),
   (claim_C6_error_policy cExcW).2.2.2.2.2 fmtW ⟨1, false⟩⟩

/-- Helper for C7: every record of a rendered list exposes its path line
as a substring delimited by newlines. -/
theorem renderRecords_mem_decomp (f : Nat → String) :
    ∀ recs : List (String × Nat × String), ∀ r ∈ recs, ∃ s t,
      renderRecords f recs = s ++ "\n" ++ "File: " ++ r.1 ++ "\n" ++ t := by
  intro recs
  induction recs with
  | nil =>
      intro r hr
      cases hr
  | cons x rest ih =>
      rcases x with ⟨p, size, ct⟩
      intro r hr
      rcases List.mem_cons.mp hr with hEq | hMem
      · subst hEq
        refine ⟨"\n" ++ eqLine,
          ("Size: " ++ f size ++ "\n") ++ (eqLine ++ "\n\n") ++ (ct ++ "\n")
            ++ renderRecords f rest, ?_⟩
        rw [renderRecords.eq_2]
        unfold fileRecord
        simp only [String.append_assoc]
      · obtain ⟨s, t, hst⟩ := ih r hMem
        refine ⟨fileRecord f p size ct ++ s, t, ?_⟩
        rw [renderRecords.eq_2, hst]
        simp only [String.append_assoc]

/-- C7: on every successful run the returned content is exactly the
concatenation of one `fileRecord` per included file — the same fixed
template (delimiter line, `File:` path line, `Size:` line, delimiter line,
blank line, raw content, trailing newline) for every record — where each
path is computed relative to the root (the walk starts from the empty
component prefix); consequently every included file's relative path occurs
verbatim in the content on its `File:` line, delimited by newlines. -/
theorem claim_C7_record_format (f : Nat → String) (root : FsEntry) (o : Options) (a : Agg)
    (h : processFilesAgg f root o = .ok a) :
    ∃ l, root = .dir (some l) ∧
      a.output = renderRecords (mkCtx f o).fmt (includedList (mkCtx f o) [] l) ∧
      ∀ r ∈ includedList (mkCtx f o) [] l, ∃ s t,
        a.output = s ++ "\n" ++ "File: " ++ r.1 ++ "\n" ++ t := by
  rcases root with ⟨st, bin, rd⟩ | ch | _
  · rw [processFilesAgg] at h
    unfold processDirectory at h
    cases h
  · rcases ch with _ | l
    · rw [processFilesAgg] at h
      unfold processDirectory at h
      cases h
    · rw [processFilesAgg] at h
      unfold processDirectory at h
      obtain ⟨ho, -, -⟩ := processEntries_ok_spec (mkCtx f o) [] l Agg.start a h
      have ho2 : a.output = renderRecords (mkCtx f o).fmt (includedList (mkCtx f o) [] l) := by
        rw [ho]
        exact String.empty_append _
      refine ⟨l, rfl, ho2, ?_⟩
      intro r hr
      obtain ⟨s, t, hst⟩ :=
        renderRecords_mem_decomp (mkCtx f o).fmt (includedList (mkCtx f o) [] l) r hr
      exact ⟨s, t, by rw [ho2, hst]⟩
  · rw [processFilesAgg] at h
    unfold processDirectory at h
    cases h

/-- Options with `includeAll = true`, as used by several witnesses. -/
def oAllW : Options := ⟨0, true⟩

/-- A tree with one included file at the root and one in a subdirectory. -/
def lW7 : List (String × FsEntry) :=
  [("a.txt", .file (.ok 5) (.ok true) (.ok "hi")),
   ("sub", .dir (some [("b.txt", .file (.ok 2) (.ok true) (.ok "B"))]))]

/-- The final state of the `lW7` run under `oAllW`. -/
def aW7 : Agg :=
  ⟨fileRecord fmtW "a.txt" 5 "hi" ++ fileRecord fmtW "sub/b.txt" 2 "B", 2, 0⟩

/-- Witness for C7: the concrete two-file run (one file inside a
subdirectory) produces exactly the rendered records of its included list,
with the subdirectory file recorded under its root-relative path. -/
theorem claim_C7_record_format_witness :
    aW7.output = renderRecords (mkCtx fmtW oAllW).fmt (includedList (mkCtx fmtW oAllW) [] lW7) := by
  have hrun : processFilesAgg fmtW (.dir (some lW7)) oAllW = .ok aW7 := by
    rw [processFilesAgg, processDirectory]
    set_option maxRecDepth 4000 in
    simp +decide [processEntries_file, processEntries_other, processEntries_dir_reserved,
      processEntries_dir_some, processEntries_nil, classifyFile, readStep, appendRecord,
      skipOne, Agg.start, relPathString, mkCtx, oAllW, aW7, lW7]
  obtain ⟨l, hroot, ho, -⟩ := claim_C7_record_format fmtW (.dir (some lW7)) oAllW aW7 hrun
  obtain rfl : l = lW7 := (Option.some.inj (FsEntry.dir.inj hroot)).symm
  exact ho

/-- C2 is false as stated: `processFiles` (src/index.js:323) returns only
the accumulated output string, not the counters.  Witnessed by two runs
whose internal `skippedFiles` counters differ (1 versus 0) while the
returned values are identical, so the returned result cannot contain the
skipped counter. -/
theorem claim_C2_counterexample :
    processFiles fmtW (.dir (some [("a.bin", .file (.ok 10) (.ok true) (.ok "x"))])) ⟨1, false⟩
        = processFiles fmtW (.dir (some [])) ⟨1, false⟩ ∧
    (processFilesAgg fmtW (.dir (some [("a.bin", .file (.ok 10) (.ok true) (.ok "x"))]))
        ⟨1, false⟩).map Agg.skippedFiles
      ≠ (processFilesAgg fmtW (.dir (some [])) ⟨1, false⟩).map Agg.skippedFiles := by
  have hle : ¬(((10 : Nat) : ℚ) > (1 : ℚ) * 1024 * 1024) := by norm_num
  have h1 : processFilesAgg fmtW
      (.dir (some [("a.bin", .file (.ok 10) (.ok true) (.ok "x"))])) ⟨1, false⟩
      = .ok ⟨"", 0, 1⟩ := by
    rw [processFilesAgg, processDirectory, processEntries_file]
    unfold classifyFile
    dsimp only [mkCtx]
    rw [if_neg (by norm_num), if_pos rfl]
    rw [processEntries_nil]
    rfl
  have h2 : processFilesAgg fmtW (.dir (some [])) ⟨1, false⟩ = .ok ⟨"", 0, 0⟩ := by
    rw [processFilesAgg, processDirectory, processEntries_nil]
    rfl
  constructor
  · rw [processFiles, processFiles, h1, h2]
    rfl
  · rw [h1, h2]
    simp [Except.map]

/-- C2 (amended): a successful `processFiles` invocation returns the
aggregated text content only — the value is the `output` projection of the
internal run state, and equals the rendered records of the included files;
the `processedFiles` and `skippedFiles` counters are kept in the internal
state but are not part of the returned value. -/
theorem claim_C2_returns_content (f : Nat → String) (root : FsEntry) (o : Options)
    (s : String) (h : processFiles f root o = .ok s) :
    ∃ a, processFilesAgg f root o = .ok a ∧ s = a.output ∧
      ∃ l, root = .dir (some l) ∧
        s = renderRecords (mkCtx f o).fmt (includedList (mkCtx f o) [] l) := by
  rw [processFiles] at h
  cases hagg : processFilesAgg f root o with
  | error e =>
      rw [hagg] at h
      cases h
  | ok a =>
      rw [hagg] at h
      have hs : s = a.output := by
        cases h
        rfl
      refine ⟨a, rfl, hs, ?_⟩
      rcases root with ⟨st, bin, rd⟩ | ch | _
      · rw [processFilesAgg] at hagg
        unfold processDirectory at hagg
        cases hagg
      · rcases ch with _ | l
        · rw [processFilesAgg] at hagg
          unfold processDirectory at hagg
          cases hagg
        · rw [processFilesAgg] at hagg
          unfold processDirectory at hagg
          obtain ⟨ho, -, -⟩ := processEntries_ok_spec (mkCtx f o) [] l Agg.start a hagg
          refine ⟨l, rfl, ?_⟩
          rw [hs, ho]
          exact String.empty_append _
      · rw [processFilesAgg] at hagg
        unfold processDirectory at hagg
        cases hagg

/-- A one-file tree used by the C2 witness. -/
def lW2 : List (String × FsEntry) := [("a.txt", .file (.ok 5) (.ok true) (.ok "hi"))]

/-- Witness for C2 (amended): the concrete one-file run returns exactly the
rendered single record. -/
theorem claim_C2_returns_content_witness :
    fileRecord fmtW "a.txt" 5 "hi"
      = renderRecords (mkCtx fmtW oAllW).fmt (includedList (mkCtx fmtW oAllW) [] lW2) := by
  have hrun : processFiles fmtW (.dir (some lW2)) oAllW = .ok (fileRecord fmtW "a.txt" 5 "hi") := by
    rw [processFiles, processFilesAgg, processDirectory]
    set_option maxRecDepth 4000 in
    simp +decide [Except.map, processEntries_file, processEntries_nil, classifyFile, readStep,
      appendRecord, skipOne, Agg.start, relPathString, mkCtx, oAllW, lW2]
  obtain ⟨a, -, -, l, hroot, hs⟩ :=
    claim_C2_returns_content fmtW (.dir (some lW2)) oAllW (fileRecord fmtW "a.txt" 5 "hi") hrun
  obtain rfl : l = lW2 := (Option.some.inj (FsEntry.dir.inj hroot)).symm
  exact hs

/-! ### Factoring the walk into per-entry contributions (used for C8) -/

theorem Agg.add_start (a : Agg) : Agg.add a Agg.start = a := by
  cases a with
  | mk o p s => simp [Agg.add, Agg.start]

theorem Agg.start_add (a : Agg) : Agg.add Agg.start a = a := by
  cases a with
  | mk o p s => simp [Agg.add, Agg.start]

theorem Agg.add_assoc (a b d : Agg) :
    Agg.add (Agg.add a b) d = Agg.add a (Agg.add b d) := by
  simp [Agg.add, String.append_assoc, Nat.add_assoc]

/-- The effect of classifying one file on an arbitrary run state is the
state's combination with the effect on the empty state. -/
theorem classifyFile_add (c : Ctx) (rp : String) (st : Except Unit Nat)
    (bin : Except Unit Bool) (rd : Except Unit String) (a : Agg) :
    classifyFile c rp st bin rd a = Agg.add a (classifyFile c rp st bin rd Agg.start) := by
  rw [classifyFile_spec, classifyFile_spec]
  cases classifyResult c st bin rd with
  | none => simp [skipOne, Agg.add, Agg.start]
  | some pr =>
      obtain ⟨size, ct⟩ := pr
      simp [appendRecord, Agg.add, Agg.start]

/-- The walk from an arbitrary starting state is the walk from the empty
state combined with that starting state. -/
theorem processEntries_shift (c : Ctx) :
    ∀ (pref : List String) (l : List (String × FsEntry)) (_adummy : Agg), ∀ b : Agg,
      processEntries c pref l b
        = (processEntries c pref l Agg.start).map (Agg.add b) := by
  intro pref l _adummy
  induction pref, l, _adummy using processEntries.induct c with
  | case1 pref a =>
      intro b
      rw [processEntries_nil, processEntries_nil]
      simp [Except.map, Agg.add_start]
  | case2 pref n st bin rd rest a ih =>
      intro b
      rw [processEntries_file, processEntries_file]
      rw [ih (classifyFile c (relPathString (pref ++ [n])) st bin rd b)]
      rw [ih (classifyFile c (relPathString (pref ++ [n])) st bin rd Agg.start)]
      cases processEntries c pref rest Agg.start with
      | error e => rfl
      | ok x =>
          dsimp only [Except.map]
          rw [classifyFile_add c (relPathString (pref ++ [n])) st bin rd b, Agg.add_assoc]
  | case3 pref n rest a ih =>
      intro b
      rw [processEntries_other, processEntries_other]
      exact ih b
  | case4 pref n ch rest a hres ih =>
      intro b
      rw [processEntries_dir_reserved c pref n ch rest b hres,
          processEntries_dir_reserved c pref n ch rest Agg.start hres]
      exact ih b
  | case5 pref n rest a hres =>
      intro b
      rw [processEntries_dir_none c pref n rest b hres,
          processEntries_dir_none c pref n rest Agg.start hres]
      rfl
  | case6 pref n rest a hres cs e herr ih =>
      intro b
      have hd : processEntries c (pref ++ [n]) cs Agg.start = .error () := by
        rw [ih a] at herr
        cases hcs : processEntries c (pref ++ [n]) cs Agg.start with
        | error e2 =>
            cases e2
            rfl
        | ok x =>
            rw [hcs] at herr
            simp [Except.map] at herr
      rw [processEntries_dir_some c pref n cs rest b hres,
          processEntries_dir_some c pref n cs rest Agg.start hres]
      rw [ih b, hd]
      rfl
  | case7 pref n rest a hres cs amid hmid ih1 ih2 =>
      intro b
      rw [ih1 a] at hmid
      cases hd : processEntries c (pref ++ [n]) cs Agg.start with
      | error e =>
          rw [hd] at hmid
          simp [Except.map] at hmid
      | ok d =>
          rw [processEntries_dir_some c pref n cs rest b hres,
              processEntries_dir_some c pref n cs rest Agg.start hres]
          rw [ih1 b, hd]
          dsimp only [Except.map]
          rw [ih2 (Agg.add b d), ih2 d]
          cases processEntries c pref rest Agg.start with
          | error e => rfl
          | ok x =>
              dsimp only [Except.map]
              rw [Agg.add_assoc]

/-- The contribution of a single directory entry, run from the empty state:
`.error ()` when the entry is a non-reserved unreadable directory (or its
subtree walk aborts), otherwise the state delta it adds. -/
def entryRun (c : Ctx) (pref : List String) : String × FsEntry → Except Unit Agg
  | (n, .file st bin rd) =>
      .ok (classifyFile c (relPathString (pref ++ [n])) st bin rd Agg.start)
  | (_, .other) => .ok Agg.start
  | (n, .dir ch) =>
      if n = "node_modules" ∨ n = ".git" then .ok Agg.start
      else match ch with
        | none => .error ()
        | some cs => processEntries c (pref ++ [n]) cs Agg.start

/-- One step of the walk, factored through `entryRun`. -/
theorem processEntries_cons_run (c : Ctx) (pref : List String) (x : String × FsEntry)
    (l : List (String × FsEntry)) (a : Agg) :
    processEntries c pref (x :: l) a =
      match entryRun c pref x with
      | .error e => .error e
      | .ok d => processEntries c pref l (Agg.add a d) := by
  rcases x with ⟨n, e⟩
  rcases e with ⟨st, bin, rd⟩ | ch | _
  · rw [processEntries_file]
    unfold entryRun
    dsimp only
    rw [classifyFile_add]
  · by_cases hres : n = "node_modules" ∨ n = ".git"
    · rw [processEntries_dir_reserved c pref n ch l a hres]
      unfold entryRun
      dsimp only
      rw [if_pos hres]
      dsimp only
      rw [Agg.add_start]
    · rcases ch with _ | cs
      · rw [processEntries_dir_none c pref n l a hres]
        unfold entryRun
        dsimp only
        rw [if_neg hres]
      · rw [processEntries_dir_some c pref n cs l a hres]
        unfold entryRun
        dsimp only
        rw [if_neg hres]
        rw [processEntries_shift c (pref ++ [n]) cs Agg.start a]
        cases processEntries c (pref ++ [n]) cs Agg.start with
        | error e2 => rfl
        | ok d => rfl
  · rw [processEntries_other]
    unfold entryRun
    dsimp only
    rw [Agg.add_start]

/-- Failure of the walk does not depend on the starting state. -/
theorem processEntries_fail_shift (c : Ctx) (pref : List String)
    (l : List (String × FsEntry)) (a : Agg) :
    processEntries c pref l a = .error () ↔
      processEntries c pref l Agg.start = .error () := by
  rw [processEntries_shift c pref l Agg.start a]
  cases processEntries c pref l Agg.start with
  | error e =>
      cases e
      simp [Except.map]
  | ok d => simp [Except.map]

/-- Failure of a one-step-extended walk: the head entry fails or the rest
fails. -/
theorem processEntries_cons_fail_iff (c : Ctx) (pref : List String) (x : String × FsEntry)
    (l : List (String × FsEntry)) (a : Agg) :
    processEntries c pref (x :: l) a = .error () ↔
      (entryRun c pref x = .error () ∨ processEntries c pref l Agg.start = .error ()) := by
  rw [processEntries_cons_run]
  cases hx : entryRun c pref x with
  | error e =>
      cases e
      simp
  | ok d =>
      dsimp only
      rw [processEntries_fail_shift c pref l (Agg.add a d)]
      simp [hx]

/-- Reordering relation on directory listings: two listings are related when
one arises from the other by permuting sibling entries (adjacent swaps plus
congruence and transitivity) and recursively reordering the listing of any
subdirectory, keeping every entry's data unchanged.  This captures the
nondeterministic enumeration order of `fs.readdir` over a fixed tree
snapshot. -/
inductive ListEquiv : List (String × FsEntry) → List (String × FsEntry) → Prop where
  | nil : ListEquiv [] []
  | consSame (x : String × FsEntry) (l l' : List (String × FsEntry)) :
      ListEquiv l l' → ListEquiv (x :: l) (x :: l')
  | consDir (n : String) (cs cs' l l' : List (String × FsEntry)) :
      ListEquiv cs cs' → ListEquiv l l' →
      ListEquiv ((n, .dir (some cs)) :: l) ((n, .dir (some cs')) :: l')
  | swap (x y : String × FsEntry) (l : List (String × FsEntry)) :
      ListEquiv (x :: y :: l) (y :: x :: l)
  | trans (l1 l2 l3 : List (String × FsEntry)) :
      ListEquiv l1 l2 → ListEquiv l2 l3 → ListEquiv l1 l3

theorem ListEquiv.countFiles_eq {l l' : List (String × FsEntry)} (h : ListEquiv l l') :
    countFiles l = countFiles l' := by
  induction h with
  | nil => rfl
  | consSame x l1 l2 h ih => rw [countFiles_cons x l1, countFiles_cons x l2, ih]
  | consDir n cs cs' l1 l2 hcs hl ihcs ihl =>
      rw [countFiles_cons (n, .dir (some cs)) l1, countFiles_cons (n, .dir (some cs')) l2, ihl]
      by_cases hres : n = "node_modules" ∨ n = ".git"
      · rw [countFiles_dir_reserved_single n (some cs) hres,
            countFiles_dir_reserved_single n (some cs') hres]
      · rw [countFiles_dir_some_single n cs hres, countFiles_dir_some_single n cs' hres, ihcs]
  | swap x y l =>
      rw [countFiles_cons x (y :: l), countFiles_cons y l,
          countFiles_cons y (x :: l), countFiles_cons x l]
      omega
  | trans l1 l2 l3 h1 h2 ih1 ih2 => rw [ih1, ih2]

theorem ListEquiv.includedList_perm (c : Ctx) {l l' : List (String × FsEntry)}
    (h : ListEquiv l l') :
    ∀ pref : List String, (includedList c pref l).Perm (includedList c pref l') := by
  induction h with
  | nil =>
      intro pref
      exact List.Perm.refl _
  | consSame x l1 l2 h ih =>
      intro pref
      rw [includedList_cons c pref x l1, includedList_cons c pref x l2]
      exact List.Perm.append_left _ (ih pref)
  | consDir n cs cs' l1 l2 hcs hl ihcs ihl =>
      intro pref
      rw [includedList_cons c pref (n, .dir (some cs)) l1,
          includedList_cons c pref (n, .dir (some cs')) l2]
      by_cases hres : n = "node_modules" ∨ n = ".git"
      · rw [includedList_dir_reserved_single c pref n (some cs) hres,
            includedList_dir_reserved_single c pref n (some cs') hres]
        exact List.Perm.append_left _ (ihl pref)
      · rw [includedList_dir_some_single c pref n cs hres,
            includedList_dir_some_single c pref n cs' hres]
        exact List.Perm.append (ihcs (pref ++ [n])) (ihl pref)
  | swap x y l =>
      intro pref
      rw [includedList_cons c pref x (y :: l), includedList_cons c pref y l,
          includedList_cons c pref y (x :: l), includedList_cons c pref x l]
      exact List.perm_append_comm_assoc _ _ _
  | trans l1 l2 l3 h1 h2 ih1 ih2 =>
      intro pref
      exact (ih1 pref).trans (ih2 pref)

theorem ListEquiv.fail_iff (c : Ctx) {l l' : List (String × FsEntry)} (h : ListEquiv l l') :
    ∀ pref : List String,
      (processEntries c pref l Agg.start = .error ()
        ↔ processEntries c pref l' Agg.start = .error ()) := by
  induction h with
  | nil =>
      intro pref
      exact Iff.rfl
  | consSame x l1 l2 h ih =>
      intro pref
      rw [processEntries_cons_fail_iff, processEntries_cons_fail_iff]
      exact or_congr Iff.rfl (ih pref)
  | consDir n cs cs' l1 l2 hcs hl ihcs ihl =>
      intro pref
      rw [processEntries_cons_fail_iff, processEntries_cons_fail_iff]
      refine or_congr ?_ (ihl pref)
      unfold entryRun
      dsimp only
      by_cases hres : n = "node_modules" ∨ n = ".git"
      · rw [if_pos hres, if_pos hres]
      · rw [if_neg hres, if_neg hres]
        exact ihcs (pref ++ [n])
  | swap x y l =>
      intro pref
      simp only [processEntries_cons_fail_iff]
      tauto
  | trans l1 l2 l3 h1 h2 ih1 ih2 =>
      intro pref
      exact (ih1 pref).trans (ih2 pref)

/-- C8: the pipeline on a fixed tree snapshot is a pure function of the
snapshot, so two runs over the same unmodified tree with the same options
agree; and across the nondeterministic sibling enumeration orders captured
by `ListEquiv`, a successful run keeps identical `processedFiles` and
`skippedFiles` counters and produces contents holding the same per-file
records up to order (each content being exactly the concatenation of its
run's record list). -/
theorem claim_C8_order_invariance (f : Nat → String) (o : Options)
    (l l' : List (String × FsEntry)) (a : Agg)
    (h : ListEquiv l l') (hrun : processFilesAgg f (.dir (some l)) o = .ok a) :
    ∃ a', processFilesAgg f (.dir (some l')) o = .ok a' ∧
      a'.processedFiles = a.processedFiles ∧
      a'.skippedFiles = a.skippedFiles ∧
      a.output = renderRecords (mkCtx f o).fmt (includedList (mkCtx f o) [] l) ∧
      a'.output = renderRecords (mkCtx f o).fmt (includedList (mkCtx f o) [] l') ∧
      (includedList (mkCtx f o) [] l).Perm (includedList (mkCtx f o) [] l') := by
  rw [processFilesAgg, processDirectory] at hrun
  have hfail : ¬(processEntries (mkCtx f o) [] l' Agg.start = .error ()) := by
    rw [← ListEquiv.fail_iff (mkCtx f o) h []]
    rw [hrun]
    intro hcontra
    cases hcontra
  obtain ⟨a', ha'⟩ : ∃ a', processEntries (mkCtx f o) [] l' Agg.start = .ok a' := by
    cases hx : processEntries (mkCtx f o) [] l' Agg.start with
    | error e =>
        cases e
        exact absurd hx hfail
    | ok d => exact ⟨d, rfl⟩
  obtain ⟨ho1, hp1, hs1⟩ := processEntries_ok_spec (mkCtx f o) [] l Agg.start a hrun
  obtain ⟨ho2, hp2, hs2⟩ := processEntries_ok_spec (mkCtx f o) [] l' Agg.start a' ha'
  have hperm := ListEquiv.includedList_perm (mkCtx f o) h []
  have hcount := ListEquiv.countFiles_eq h
  have hlen := hperm.length_eq
  simp only [Agg.start] at hp1 hp2 hs1 hs2
  refine ⟨a', ?_, ?_, ?_, ?_, ?_, hperm⟩
  · rw [processFilesAgg, processDirectory]
    exact ha'
  · omega
  · omega
  · rw [ho1]
    exact String.empty_append _
  · rw [ho2]
    exact String.empty_append _

/-- A two-file listing and its enumeration-order reversal, used by the C8
witness. -/
def lW8 : List (String × FsEntry) :=
  [("a.txt", .file (.ok 1) (.ok true) (.ok "A")),
   ("b.txt", .file (.ok 2) (.ok true) (.ok "B"))]

/-- The reversal of `lW8`. -/
def lW8r : List (String × FsEntry) :=
  [("b.txt", .file (.ok 2) (.ok true) (.ok "B")),
   ("a.txt", .file (.ok 1) (.ok true) (.ok "A"))]

/-- The final state of the `lW8` run under `oAllW`. -/
def aW8 : Agg := ⟨fileRecord fmtW "a.txt" 1 "A" ++ fileRecord fmtW "b.txt" 2 "B", 2, 0⟩

/-- Witness for C8: over a concrete two-file listing and its reversed
enumeration order, the included records are a permutation of one another
and the first run's content is exactly its rendered record list. -/
theorem claim_C8_order_invariance_witness :
    (includedList (mkCtx fmtW oAllW) [] lW8).Perm (includedList (mkCtx fmtW oAllW) [] lW8r) ∧
    aW8.output = renderRecords (mkCtx fmtW oAllW).fmt (includedList (mkCtx fmtW oAllW) [] lW8) := by
  have hrun : processFilesAgg fmtW (.dir (some lW8)) oAllW = .ok aW8 := by
    rw [processFilesAgg, processDirectory]
    set_option maxRecDepth 4000 in
    simp +decide [processEntries_file, processEntries_nil, classifyFile, readStep,
      appendRecord, skipOne, Agg.start, relPathString, mkCtx, oAllW, aW8, lW8]
  obtain ⟨a', -, -, -, ho, -, hperm⟩ :=
    claim_C8_order_invariance fmtW oAllW lW8 lW8r aW8
      (by unfold lW8 lW8r; exact ListEquiv.swap _ _ _) hrun
  exact ⟨hperm, ho⟩

end Git2Txt
